import Mathlib

/-!
Verification development for the lsat-proxy repository: a shallow embedding
of the credential (LSAT) engine, quota ledger, invoice cache and upstream
forwarder, with theorems settling the specification claims.

Bytes are modelled as natural numbers below 256, 32-bit machine words as
naturals reduced modulo 2 ^ 32 at every operation that can overflow.
-/

namespace LsatProxy

abbrev Bytes := List Nat

/-- Reduce a natural number to a 32-bit machine word. -/
def w32 (n : Nat) : Nat := n % 4294967296

/-- Rotate a 32-bit word right by `n` bits. -/
def rotr32 (n x : Nat) : Nat := w32 ((x >>> n) ||| (x <<< (32 - n)))

/-! SHA-256 (FIPS 180-4), the digest used throughout the source via the
`bitcoin_hashes` crate: identity digests, preimage hashing and the
canonical request-body digest. -/

def bigS0 (x : Nat) : Nat := (rotr32 2 x) ^^^ (rotr32 13 x) ^^^ (rotr32 22 x)

def bigS1 (x : Nat) : Nat := (rotr32 6 x) ^^^ (rotr32 11 x) ^^^ (rotr32 25 x)

def smallS0 (x : Nat) : Nat := (rotr32 7 x) ^^^ (rotr32 18 x) ^^^ (x >>> 3)

def smallS1 (x : Nat) : Nat := (rotr32 17 x) ^^^ (rotr32 19 x) ^^^ (x >>> 10)

def chF (x y z : Nat) : Nat := (x &&& y) ^^^ ((x ^^^ 4294967295) &&& z)

def majF (x y z : Nat) : Nat := (x &&& y) ^^^ (x &&& z) ^^^ (y &&& z)

def shaK : List Nat :=
  [1116352408, 1899447441, 3049323471, 3921009573, 961987163,
   1508970993, 2453635748, 2870763221, 3624381080, 310598401,
   607225278, 1426881987, 1925078388, 2162078206, 2614888103,
   3248222580, 3835390401, 4022224774, 264347078, 604807628,
   770255983, 1249150122, 1555081692, 1996064986, 2554220882,
   2821834349, 2952996808, 3210313671, 3336571891, 3584528711,
   113926993, 338241895, 666307205, 773529912, 1294757372,
   1396182291, 1695183700, 1986661051, 2177026350, 2456956037,
   2730485921, 2820302411, 3259730800, 3345764771, 3516065817,
   3600352804, 4094571909, 275423344, 430227734, 506948616,
   659060556, 883997877, 958139571, 1322822218, 1537002063,
   1747873779, 1955562222, 2024104815, 2227730452, 2361852424,
   2428436474, 2756734187, 3204031479, 3329325298]

def shaH0 : List Nat :=
  [1779033703, 3144134277, 1013904242, 2773480762, 1359893119,
   2600822924, 528734635, 1541459225]

/-- One step of the message-schedule extension; the list holds the words
computed so far, newest first. -/
def stepW (revW : List Nat) : List Nat :=
  w32 (smallS1 (revW.getD 1 0) + revW.getD 6 0 +
       smallS0 (revW.getD 14 0) + revW.getD 15 0) :: revW

def extendW : Nat → List Nat → List Nat
  | 0, revW => revW
  | k + 1, revW => extendW k (stepW revW)

/-- Extend the 16 block words to the 64 schedule words W0..W63. -/
def schedule (w16 : List Nat) : List Nat := (extendW 48 w16.reverse).reverse

/-- One SHA-256 compression round on the state `[a,b,c,d,e,f,g,h]`. -/
def round1 (st : List Nat) (kw : Nat × Nat) : List Nat :=
  match st with
  | [a, b, c, d, e, f, g, h] =>
    let t1 := w32 (h + bigS1 e + chF e f g + kw.1 + kw.2)
    let t2 := w32 (bigS0 a + majF a b c)
    [w32 (t1 + t2), a, b, c, w32 (d + t1), e, f, g]
  | other => other

/-- SHA-256 compression of one 16-word block into the running state. -/
def compress (st : List Nat) (blockWords : List Nat) : List Nat :=
  let st2 := ((shaK.zip (schedule blockWords)).foldl round1 st)
  (st.zip st2).map (fun p => w32 (p.1 + p.2))

def u32be (n : Nat) : Bytes :=
  [n / 16777216 % 256, n / 65536 % 256, n / 256 % 256, n % 256]

def u64be (n : Nat) : Bytes := u32be (n / 4294967296) ++ u32be (n % 4294967296)

/-- FIPS 180-4 padding: append 0x80, zeros to 56 mod 64, then the bit
length as a big-endian 64-bit integer. -/
def padMsg (m : Bytes) : Bytes :=
  m ++ [128] ++ List.replicate ((119 - m.length % 64) % 64) 0 ++ u64be (8 * m.length)

/-- Group bytes into big-endian 32-bit words. -/
def words4 : Bytes → List Nat
  | b0 :: b1 :: b2 :: b3 :: rest =>
    (((b0 * 256 + b1) * 256 + b2) * 256 + b3) :: words4 rest
  | _ => []

/-- Split into 64-byte blocks; the fuel argument keeps the recursion
structural so the kernel can evaluate it. -/
def chunk64F : Nat → Bytes → List Bytes
  | 0, _ => []
  | _, [] => []
  | fuel + 1, bs => bs.take 64 :: chunk64F fuel (bs.drop 64)

def chunk64 (bs : Bytes) : List Bytes := chunk64F bs.length bs

/-- SHA-256 of a byte sequence, producing the 32 digest bytes. -/
def sha256 (m : Bytes) : Bytes :=
  let st := (chunk64 (padMsg m)).foldl (fun st blk => compress st (words4 blk)) shaH0
  st.foldr (fun x acc => u32be x ++ acc) []

/-! Hex encoding and decoding as done by the `hex` crate: lowercase
output, decoding accepts both cases and fails on odd length or bad
characters. -/

def hexDigit (n : Nat) : Char :=
  if n < 10 then Char.ofNat (48 + n) else Char.ofNat (87 + n)

def hexEncode (bs : Bytes) : String :=
  String.mk (bs.foldr (fun b acc => hexDigit (b / 16) :: hexDigit (b % 16) :: acc) [])

def hexNibble (c : Char) : Option Nat :=
  if 48 ≤ c.toNat ∧ c.toNat ≤ 57 then some (c.toNat - 48)
  else if 97 ≤ c.toNat ∧ c.toNat ≤ 102 then some (c.toNat - 87)
  else if 65 ≤ c.toNat ∧ c.toNat ≤ 70 then some (c.toNat - 55)
  else none

def hexDecodeChars : List Char → Option Bytes
  | [] => some []
  | c1 :: c2 :: rest =>
    match hexNibble c1, hexNibble c2, hexDecodeChars rest with
    | some hi, some lo, some bs => some ((hi * 16 + lo) :: bs)
    | _, _, _ => none
  | _ => none

def hexDecode (s : String) : Option Bytes := hexDecodeChars s.data

/-- UTF-8 encoding of one character. -/
def charUtf8 (c : Char) : Bytes :=
  let n := c.toNat
  if n < 128 then [n]
  else if n < 2048 then [192 + n / 64, 128 + n % 64]
  else if n < 65536 then [224 + n / 4096, 128 + n / 64 % 64, 128 + n % 64]
  else [240 + n / 262144, 128 + n / 4096 % 64, 128 + n / 64 % 64, 128 + n % 64]

/-- UTF-8 bytes of a string. -/
def strBytes (s : String) : Bytes := s.data.foldr (fun c acc => charUtf8 c ++ acc) []

/-- Split a character list at a separator, like Rust `str::split` with a
char pattern: the empty input yields one empty piece. -/
def splitOnChar (sep : Char) : List Char → List (List Char)
  | [] => [[]]
  | c :: rest =>
    if c = sep then [] :: splitOnChar sep rest
    else
      match splitOnChar sep rest with
      | [] => [[c]]
      | g :: gs => (c :: g) :: gs

/-- ASCII lower-casing of one character. -/
def lowerChar (c : Char) : Char :=
  if 65 ≤ c.toNat ∧ c.toNat ≤ 90 then Char.ofNat (c.toNat + 32) else c

/-- Case-insensitive (ASCII) string comparison, as the http crate applies
to header names. -/
def strEqCI (a b : String) : Bool := a.data.map lowerChar == b.data.map lowerChar

/-! Credential identity: lsat.rs `Id` with its bincode serialization
(fixed-width little-endian integers, raw 32-byte arrays). -/

structure IdT where
  version : Nat
  payment_hash : Bytes
  token_id : Bytes
deriving DecidableEq, Repr

/-- Little-endian 8-byte encoding of a u64/usize, as bincode writes it. -/
def u64le (n : Nat) : Bytes :=
  [n % 256, n / 256 % 256, n / 65536 % 256, n / 16777216 % 256,
   n / 4294967296 % 256, n / 1099511627776 % 256,
   n / 281474976710656 % 256, n / 72057594037927936 % 256]

def u64leDecode (bs : Bytes) : Nat := bs.foldr (fun b acc => b + 256 * acc) 0

/-- bincode serialization of `Id`: version as little-endian u64, then the
32 payment-hash bytes, then the 32 token bytes. -/
def serId (id : IdT) : Bytes := u64le id.version ++ id.payment_hash ++ id.token_id

/-- SHA-256 of the serialized identity (lsat.rs `ToSha256 for Id`). -/
def idDigest (id : IdT) : Bytes := sha256 (serId id)

/-- bincode deserialization of `Id`: reads 8 + 32 + 32 bytes, ignoring
any trailing bytes as bincode does. -/
def bincodeDeserId (bs : Bytes) : Option IdT :=
  if 72 ≤ bs.length then
    some ⟨u64leDecode (bs.take 8), (bs.drop 8).take 32, (bs.drop 40).take 32⟩
  else none

/-- lsat.rs `From<Id> for ByteString`: the macaroon identifier is the hex
encoding of the serialized identity. -/
def idToIdentifier (id : IdT) : String := hexEncode (serId id)

/-- lsat.rs `TryFrom<&Macaroon> for Id`: hex-decode the identifier,
bincode-deserialize, and reject a non-zero version. -/
def idFromIdentifier (s : String) : Option IdT :=
  match hexDecode s with
  | none => none
  | some bs =>
    match bincodeDeserId bs with
    | none => none
    | some id => if id.version = 0 then some id else none

/-- Modelled from the spec: `MacaroonKey::generate` lives in the external
`macaroon` crate, not in this repository. Spec sections 3.2 and 4.3 state
that the digest of the serialized identity is itself the credential
secret and signing key, so key derivation is modelled as the identity
function on the 32-byte seed. -/
def macaroonKeyGen (seed : Bytes) : Bytes := seed

/-! Quota store: db.rs `Entry` over the sled key-value store, modelled as
an association list keyed by the namespaced digest string. -/

structure EntryT where
  id : String
  secret : Bytes
  quota : Nat
deriving DecidableEq, Repr

def dbKey (id : IdT) : String := "lsat/proxy/secrets/" ++ hexEncode (idDigest id)

abbrev Store := List (String × EntryT)

def storeGet (st : Store) (k : String) : Option EntryT :=
  (st.find? (fun p => p.1 == k)).map Prod.snd

def storeInsert (k : String) (e : EntryT) : Store → Store
  | [] => [(k, e)]
  | (k2, e2) :: rest =>
    if k2 == k then (k, e) :: rest else (k2, e2) :: storeInsert k e rest

def storeRemove (k : String) : Store → Store
  | [] => []
  | (k2, e2) :: rest =>
    if k2 == k then rest else (k2, e2) :: storeRemove k rest

/-- The entry written by db::Entry::insert during challenge minting. -/
def mintEntry (id : IdT) (quota : Nat) : EntryT :=
  ⟨dbKey id, macaroonKeyGen (idDigest id), quota⟩

/-- First stage of lsat.rs `Lsat::verify`: recompute the signing key from
the identity decoded out of the macaroon and compare it with the stored
secret. -/
def verifySignatureOk (secret : Bytes) (id : IdT) : Bool :=
  secret == macaroonKeyGen (idDigest id)

/-- lsat.rs `SubAssign for MiliSats`: u32 subtraction. Release builds
wrap modulo 2 ^ 32 on underflow (debug builds would panic). -/
def msatSub (a b : Nat) : Nat := (w32 a + 4294967296 - w32 b) % 4294967296

/-! Backend descriptor (config.rs), reduced to the fields the claims
touch. -/

structure BackendT where
  path : String
  price_msat : Nat
  budget_multiple : Option Nat
deriving DecidableEq, Repr

/-- config.rs `Backend::amount_total`: `price_msat * budget_multiple.unwrap_or(1)`
as u32 arithmetic. -/
def amountTotal (b : BackendT) : Nat := w32 (b.price_msat * b.budget_multiple.getD 1)

/-- config.rs `Backend::get_price`. -/
def getPrice (b : BackendT) : Nat := b.price_msat

/-! Macaroon data as the handler observes it: the public identifier plus
the list of caveats (external `macaroon` crate container shape). -/

inductive CaveatT where
  | firstParty (pred : String)
  | thirdParty
deriving DecidableEq, Repr

structure Mac where
  identifier : String
  caveats : List CaveatT
deriving DecidableEq, Repr

/-- lsat.rs `Lsat::get_predicate`: scan first-party caveats; take the text
before the first `=`; it must have length 2 and equal `name` for the
(whole) predicate to be returned. (Lengths here are character counts,
which coincide with Rust byte lengths on ASCII predicates.) -/
def getPredicate (mac : Mac) (name : String) : Option String :=
  mac.caveats.findSome? (fun c =>
    match c with
    | .firstParty pred =>
      let s := (splitOnChar '=' pred.data).headD []
      if s.length == 2 && s == name.data then some pred else none
    | .thirdParty => none)

/-- Result of lsat.rs `FromPreimage::from_preimage`: hex-decode, then
slice the first 32 bytes; a shorter decode makes the Rust slice panic. -/
inductive PreOut where
  | ok (bytes : Bytes)
  | err
  | panicked
deriving DecidableEq, Repr

def fromPreimage (s : String) : PreOut :=
  match hexDecode s with
  | none => .err
  | some bs => if 32 ≤ bs.length then .ok (bs.take 32) else .panicked

/-! Header parsing (lsat.rs `HeadersParser::parse_lsat`). Header names
are case-insensitive, as in the http crate's HeaderMap. The regex engine
and the macaroon deserializer are external crates, abstracted as function
parameters: `regex` returns the two capture groups of
`LSAT (.*?):([a-f0-9]{64})` on a match, `deser` the decoded macaroon. -/

abbrev HeaderMap := List (String × String)

def hmGet (hm : HeaderMap) (name : String) : Option String :=
  (hm.find? (fun p => strEqCI p.1 name)).map Prod.snd

def hmContains (hm : HeaderMap) (name : String) : Bool := (hmGet hm name).isSome

/-- lsat.rs `Lsat::init`: decode the identity out of the macaroon. -/
def lsatInit (mac : Mac) : Option IdT := idFromIdentifier mac.identifier

inductive ParseOut where
  | ok (mac : Mac) (id : IdT) (preimage : Bytes)
  | err (msg : String)
  | panicked
deriving DecidableEq, Repr

/-- lsat.rs `parse_lsat`: probe `Authorization`, then
`Grpc-Metadata-Macaroon`, then `Macaroon`. In the macaroon-only branches
the preimage is looked up with `get_predicate "preimage"` whose absence
hits an `.expect` (a panic). -/
def parseLsat (regex : String → Option (String × String))
    (deser : String → Option Mac) (hm : HeaderMap) : ParseOut :=
  match hmGet hm "Authorization" with
  | some v =>
    match regex v with
    | none => .err "unable to find regex elems"
    | some (macB64, preHex) =>
      match deser macB64 with
      | none => .err "macaroon deserialize"
      | some mac =>
        match hexDecode preHex with
        | none => .err "preimage hex"
        | some bs =>
          if 32 ≤ bs.length then
            match lsatInit mac with
            | none => .err "identity decode"
            | some id => .ok mac id (bs.take 32)
          else .panicked
  | none =>
    match (match hmGet hm "Grpc-Metadata-Macaroon" with
           | some v => some v
           | none => hmGet hm "Macaroon") with
    | none => .err "No LSAT header found"
    | some v =>
      match deser v with
      | none => .err "macaroon deserialize"
      | some mac =>
        match lsatInit mac with
        | none => .err "identity decode"
        | some id =>
          match getPredicate mac "preimage" with
          | none => .panicked
          | some pred =>
            match fromPreimage pred with
            | .ok bytes => .ok mac id bytes
            | .err => .err "preimage decode"
            | .panicked => .panicked

/-! Invoice cache and node lookup (lnd.rs). -/

inductive InvState where
  | Open
  | Settled
  | Canceled
  | Accepted
deriving DecidableEq, Repr

structure InvoiceT where
  rhash : Bytes
  state : InvState
deriving DecidableEq, Repr

abbrev CacheT := List (Bytes × InvoiceT)

def cacheGet (c : CacheT) (k : Bytes) : Option InvoiceT :=
  (c.find? (fun p => p.1 == k)).map Prod.snd

def cacheInsert (k : Bytes) (v : InvoiceT) : CacheT → CacheT
  | [] => [(k, v)]
  | (k2, v2) :: rest =>
    if k2 == k then (k, v) :: rest else (k2, v2) :: cacheInsert k v rest

inductive LookupOut where
  | cached (inv : InvoiceT)
  | fromNode (inv : InvoiceT)
  | nodeErr
deriving DecidableEq, Repr

/-- lnd.rs `Client::lookup_invoice`: a cache hit is returned as-is; only
a miss queries the node, and the node's answer is cached keyed by the
invoice's own r_hash. -/
def lookupInvoice (cache : CacheT) (node : Bytes → Option InvoiceT)
    (ph : Bytes) : LookupOut × CacheT :=
  match cacheGet cache ph with
  | some inv => (.cached inv, cache)
  | none =>
    match node ph with
    | none => (.nodeErr, cache)
    | some inv => (.fromNode inv, cacheInsert inv.rhash inv cache)

/-! The protected-resource handler (api.rs `handle_protected`), with the
external collaborators (node RPC, regex engine, macaroon deserializer and
verifier, upstream HTTP) abstracted as function-valued context fields. -/

structure MintCtx where
  newInvoice : Nat → Option Bytes
  tokenId : Bytes

structure VerCtx where
  regex : String → Option (String × String)
  deser : String → Option Mac
  macVerify : Mac → Bytes → String → Bool
  node : Bytes → Option InvoiceT
  upstreamResp : Option String

inductive Outcome where
  | challenge (invoiceAmount : Nat)
  | rejected (msg : String)
  | panicked
  | served (remainingQuota : Nat)
deriving DecidableEq, Repr

/-- lsat.rs `generate_challange` plus its db insert: request an invoice
for `amount_total`, build the identity from its payment hash and the
fresh token, and persist the entry under the identity-digest key with
quota `amount_total`. -/
def generateChallange (mc : MintCtx) (b : BackendT) (store : Store) :
    Outcome × Store :=
  match mc.newInvoice (amountTotal b) with
  | none => (.rejected "Unable to generate challange", store)
  | some ph =>
    (.challenge (amountTotal b),
     storeInsert (dbKey ⟨0, ph, mc.tokenId⟩)
       (mintEntry ⟨0, ph, mc.tokenId⟩ (amountTotal b)) store)

/-- api.rs `handle_protected`. Without an Authorization header the mint
challenge is returned. Otherwise: parse the credential, fetch the store
entry, check the recomputed signing key against the stored secret, run
the macaroon verifier, then — exactly as in the source — charge the quota
BEFORE checking the preimage against the payment hash and before
requiring a settled invoice, and finally forward upstream. -/
def handleProtected (mc : MintCtx) (vc : VerCtx) (b : BackendT)
    (hm : HeaderMap) (store : Store) (cache : CacheT) :
    Outcome × Store × CacheT :=
  if hmContains hm "Authorization" = false then
    let r := generateChallange mc b store
    (r.1, r.2, cache)
  else
    match parseLsat vc.regex vc.deser hm with
    | .panicked => (.panicked, store, cache)
    | .err _ => (.rejected "LSAT incorrect", store, cache)
    | .ok mac id preimage =>
      match storeGet store (dbKey id) with
      | none => (.rejected "No db entry for LSAT, possibly expired", store, cache)
      | some entry =>
        if verifySignatureOk entry.secret id = false then
          (.rejected "LSAT incorrect", store, cache)
        else if vc.macVerify mac entry.secret b.path = false then
          (.rejected "LSAT incorrect", store, cache)
        else
          let q := msatSub entry.quota (getPrice b)
          let store2 := if q = 0 then storeRemove entry.id store
                        else storeInsert entry.id { entry with quota := q } store
          if sha256 preimage ≠ id.payment_hash then
            (.rejected "Preimage does not match payment hash", store2, cache)
          else
            match lookupInvoice cache vc.node (sha256 preimage) with
            | (.nodeErr, cache2) =>
              (.rejected "Unable to get invoice state", store2, cache2)
            | (.cached inv, cache2) | (.fromNode inv, cache2) =>
              if inv.state ≠ .Settled then
                (.rejected "Invoice is not settled", store2, cache2)
              else
                match vc.upstreamResp with
                | none => (.rejected "upstream failure", store2, cache2)
                | some _ => (.served q, store2, cache2)

/-! Canonical request-body digest (lsat.rs `ToSha256 for
HashMap<String, String>`). The map contents are represented as an
association list in arbitrary iteration order; the source sorts the
pairs by key (itertools `sorted_by_key`, a stable sort), flattens each
pair to key then value, joins with no separator and hashes the UTF-8
bytes. -/

def keyLE (a b : String × String) : Prop := a.1 ≤ b.1

instance : DecidableRel keyLE := fun a b => inferInstanceAs (Decidable (a.1 ≤ b.1))

def sortByKey (l : List (String × String)) : List (String × String) :=
  l.insertionSort keyLE

def canonicalStr (l : List (String × String)) : String :=
  String.join ((sortByKey l).foldr (fun p acc => p.1 :: p.2 :: acc) [])

def mapDigest (l : List (String × String)) : Bytes := sha256 (strBytes (canonicalStr l))

/-! Upstream response extraction (upstream.rs `Upstream::parse`). JSON
values follow the serde_json shape; numbers are abstracted as integers,
which the traversal never inspects. -/

inductive Json where
  | null
  | bool (b : Bool)
  | num (n : Int)
  | str (s : String)
  | arr (xs : List Json)
  | obj (fields : List (String × Json))

/-- serde_json `Value::get` with a usize index: arrays only. -/
def jsonGetIdx (j : Json) (n : Nat) : Option Json :=
  match j with
  | .arr xs => xs[n]?
  | _ => none

/-- serde_json `Value::get` with a string key: objects only. -/
def jsonGetKey (j : Json) (k : String) : Option Json :=
  match j with
  | .obj fs => (fs.find? (fun p => p.1 == k)).map Prod.snd
  | _ => none

/-- Rust `str::parse::<usize>`: optional leading plus sign, at least one
digit, all digits, value below 2 ^ 64. -/
def parseUsize (s : String) : Option Nat :=
  let cs := match s.data with
    | '+' :: rest => rest
    | other => other
  if cs.isEmpty then none
  else if cs.all Char.isDigit then
    let n := cs.foldl (fun acc c => acc * 10 + (c.toNat - 48)) 0
    if n < 18446744073709551616 then some n else none
  else none

/-- One traversal step of the parse loop: a segment that parses as usize
indexes arrays, any other segment is an object key. -/
def segGet (root : Json) (f : String) : Option Json :=
  match parseUsize f with
  | some n => jsonGetIdx root n
  | none => jsonGetKey root f

inductive JOutcome where
  | ok (s : String)
  | err (msg : String)
  | panicked
deriving DecidableEq, Repr

/-- upstream.rs parse loop: each segment is resolved with `.unwrap()`, so
a missing segment panics; after the loop, a non-string value is turned
into a returned error. -/
def traverseLoop (root : Json) : List String → JOutcome
  | [] =>
    match root with
    | .str s => .ok s
    | _ => .err "Unable to convert to string"
  | f :: rest =>
    match segGet root f with
    | none => .panicked
    | some v => traverseLoop v rest

/-- Modelled from the spec (the comparison definition for the refinement
claim): "traverse by response_field_path: a dotted path where each
segment is either an object key or a non-negative integer array index",
with a missing segment reported as an absent result. -/
def traverseSpec (root : Json) : List String → Option Json
  | [] => some root
  | f :: rest =>
    match segGet root f with
    | none => none
    | some v => traverseSpec v rest

/-- upstream.rs `Upstream::parse`: the outer Option models the
`resp_data` readiness check, the inner Option the external
serde_json parse of the body; then the dotted response-field path is
traversed. -/
def upstreamParse (respData : Option (Option Json)) (responseFields : String) :
    JOutcome :=
  match respData with
  | none => .err "Response data not ready"
  | some none => .err "json parse"
  | some (some root) =>
    traverseLoop root ((splitOnChar '.' responseFields.data).map String.mk)

/-! Concrete inputs used by the counterexample and failing-input
theorems. -/

def zeros32 : Bytes := List.replicate 32 0

def hex64zeros : String := String.mk (List.replicate 64 '0')

/-- Identity whose payment hash is NOT the hash of the all-zero preimage. -/
def exId0 : IdT := ⟨0, zeros32, zeros32⟩

/-- Identity whose payment hash IS the hash of the all-zero preimage. -/
def exId1 : IdT := ⟨0, sha256 zeros32, zeros32⟩

def exB1 : BackendT := ⟨"/echo", 1000, some 3⟩

def exB2 : BackendT := ⟨"/echo", 2, none⟩

def exAuthHeaders : HeaderMap := [("Authorization", "LSAT x:y")]

def exMint : MintCtx := ⟨fun _ => none, zeros32⟩

/-- Macaroon carrying the serialized identity `exId0` and no caveats. -/
def exMac0 : Mac := ⟨idToIdentifier exId0, []⟩

/-- Macaroon carrying the serialized identity `exId1` and no caveats. -/
def exMac1 : Mac := ⟨idToIdentifier exId1, []⟩

/-- Macaroon carrying a well-formed `preimage=<64 hex digits>` caveat. -/
def exMacPre : Mac := ⟨idToIdentifier exId0, [.firstParty ("preimage=" ++ hex64zeros)]⟩

/-- Verification context for `exId0`: regex yields the all-zero preimage,
deserialization yields `exMac0`, caveat verification accepts. -/
def exVc0 : VerCtx :=
  ⟨fun _ => some ("m", hex64zeros), fun _ => some exMac0,
   fun _ _ _ => true, fun _ => none, some "x"⟩

/-- Verification context for `exId1`, same external behavior. -/
def exVc1 : VerCtx :=
  ⟨fun _ => some ("m", hex64zeros), fun _ => some exMac1,
   fun _ _ _ => true, fun _ => none, some "x"⟩

def exStore0 : Store := [(dbKey exId0, mintEntry exId0 3000)]

def exStore1 : Store := [(dbKey exId1, mintEntry exId1 3)]

/-- Invoice cache holding the settled invoice for `exId1`. -/
def exCache1 : CacheT := [(sha256 zeros32, ⟨sha256 zeros32, .Settled⟩)]

/-! Theorems settling the claims. -/

set_option maxRecDepth 100000 in
/-- C1: the claim says a failed verification leaves the stored quota
unchanged, in particular for a wrong preimage. Evaluating the handler at
a request that passes the signature and caveat checks but presents the
all-zero preimage (whose hash does not match the payment hash) shows the
request is rejected while the stored quota has already been charged from
3000 down to 2000 milli-satoshis: the code updates the quota before the
preimage and invoice-settlement checks. -/
theorem c1_wrong_preimage_still_charges_quota :
    handleProtected exMint exVc0 exB1 exAuthHeaders exStore0 [] =
      (.rejected "Preimage does not match payment hash",
       [(dbKey exId0, ⟨dbKey exId0, macaroonKeyGen (idDigest exId0), 2000⟩)], []) ∧
    storeGet exStore0 (dbKey exId0) =
      some ⟨dbKey exId0, macaroonKeyGen (idDigest exId0), 3000⟩ ∧
    (2000 : Nat) ≠ 3000 := by
  refine ⟨by decide, by decide, by decide⟩

set_option maxRecDepth 100000 in
/-- C3: the claim says that with initial quota Q and price p, a further
verification fails with no integer underflow once k·p exceeds Q. With
Q = 3 and p = 2 the first verification succeeds leaving quota 1; the
second request then subtracts 2 from 1: the u32 quota underflows, wraps
to 2 ^ 32 − 1, and the request SUCCEEDS with the wrapped quota stored,
instead of failing. -/
theorem c3_quota_subtraction_underflows :
    handleProtected exMint exVc1 exB2 exAuthHeaders exStore1 exCache1 =
      (.served 1,
       [(dbKey exId1, ⟨dbKey exId1, macaroonKeyGen (idDigest exId1), 1⟩)], exCache1) ∧
    handleProtected exMint exVc1 exB2 exAuthHeaders
        [(dbKey exId1, ⟨dbKey exId1, macaroonKeyGen (idDigest exId1), 1⟩)] exCache1 =
      (.served 4294967295,
       [(dbKey exId1, ⟨dbKey exId1, macaroonKeyGen (idDigest exId1), 4294967295⟩)],
       exCache1) ∧
    (4294967295 : Nat) = 4294967296 - 1 := by
  refine ⟨by decide, by decide, by decide⟩

/-- C6: the claim says that a header map carrying only the
Grpc-Metadata-Macaroon header with a valid macaroon yields the credential
plus the preimage extracted from a `preimage=<hex>` caveat. Evaluating
the parser on such a macaroon shows it panics instead: `get_predicate`
only accepts predicates whose name has length 2, so the name "preimage"
can never match and the `.expect` call is reached. The claim's other two
parts hold: probing follows the stated order, and a header map matching
no shape yields an error, shown here on a map with an unrelated header. -/
theorem c6_macaroon_only_header_panics :
    parseLsat (fun _ => none) (fun _ => some exMacPre)
      [("Grpc-Metadata-Macaroon", "zzz")] = .panicked ∧
    getPredicate exMacPre "preimage" = none ∧
    exMacPre.caveats = [.firstParty ("preimage=" ++ hex64zeros)] ∧
    parseLsat (fun _ => none) (fun _ => some exMacPre)
      [("X-Other", "zzz")] = .err "No LSAT header found" := by
  refine ⟨by decide, by decide, by decide, by decide⟩

/-- C2: the secret stored in the quota entry minted at challenge time is
byte-equal to SHA-256 of the serialized credential identity, and the
signature check of verification accepts a stored secret exactly when it
equals SHA-256 of the serialized identity decoded from the macaroon (the
external macaroon crate's key derivation is modelled from the spec as
using the identity digest itself as the key). -/
theorem c2_minted_secret_and_signature_check (id : IdT) (amount : Nat) (s : Bytes) :
    (mintEntry id amount).secret = sha256 (serId id) ∧
    (verifySignatureOk s id = true ↔ s = sha256 (serId id)) := by
  constructor
  · rfl
  · simp [verifySignatureOk, macaroonKeyGen, idDigest]

/-- C4 counterexample: with price 5 msat and budget multiple Some 0 the
code computes amount 0, while the claim's formula p · max(1, m) gives 5. -/
theorem c4_counterexample :
    amountTotal ⟨"/p", 5, some 0⟩ = 0 ∧ 5 * max 1 0 = 5 ∧ (0 : Nat) ≠ 5 := by
  refine ⟨by decide, by decide, by decide⟩

/-- C4 amended: the invoice amount requested at challenge time and the
initial quota persisted in the store both equal
price · budget-multiple — the multiple defaulting to 1 only when absent,
with no clamping to at least 1 — reduced modulo 2 ^ 32; the minted quota
is therefore 0 whenever the multiple is present and 0. -/
theorem c4_amended_amount_and_quota (mc : MintCtx) (b : BackendT) (store : Store)
    (ph : Bytes) (h : mc.newInvoice (amountTotal b) = some ph) :
    generateChallange mc b store =
      (.challenge (amountTotal b),
       storeInsert (dbKey ⟨0, ph, mc.tokenId⟩)
         (mintEntry ⟨0, ph, mc.tokenId⟩ (amountTotal b)) store) ∧
    (mintEntry ⟨0, ph, mc.tokenId⟩ (amountTotal b)).quota = amountTotal b ∧
    amountTotal b = b.price_msat * b.budget_multiple.getD 1 % 4294967296 := by
  refine ⟨?_, rfl, rfl⟩
  simp [generateChallange, h]

/-- C4 witness: the amended statement applied to the concrete backend
with price 5 and budget multiple 0. -/
theorem c4_amended_witness :
    (MintCtx.mk (fun _ => some zeros32) zeros32).newInvoice
        (amountTotal ⟨"/p", 5, some 0⟩) = some zeros32 ∧
    generateChallange ⟨fun _ => some zeros32, zeros32⟩ ⟨"/p", 5, some 0⟩ [] =
      (.challenge (amountTotal ⟨"/p", 5, some 0⟩),
       storeInsert (dbKey ⟨0, zeros32, zeros32⟩)
         (mintEntry ⟨0, zeros32, zeros32⟩ (amountTotal ⟨"/p", 5, some 0⟩)) []) :=
  ⟨rfl, (c4_amended_amount_and_quota ⟨fun _ => some zeros32, zeros32⟩
    ⟨"/p", 5, some 0⟩ [] zeros32 rfl).1⟩

/-- C5 counterexample: a stale cached Open entry is returned as-is even
though the node would report Settled for the same payment hash, so the
gating check sees the stale cached state; no node lookup happens on a
cache hit. -/
theorem c5_counterexample :
    lookupInvoice [(zeros32, ⟨zeros32, .Open⟩)]
        (fun _ => some ⟨zeros32, .Settled⟩) zeros32 =
      (.cached ⟨zeros32, .Open⟩, [(zeros32, ⟨zeros32, .Open⟩)]) ∧
    (fun _ : Bytes => some (InvoiceT.mk zeros32 .Settled)) zeros32 =
      some ⟨zeros32, .Settled⟩ ∧
    InvState.Open ≠ InvState.Settled := by
  refine ⟨by decide, rfl, by decide⟩

/-- C5 amended: on a cache hit the cached invoice is returned unchanged
with no node consultation, whatever its state (including a stale Open);
only on a cache miss does the implementation query the node, returning
the node's answer and caching it under the invoice's r_hash. -/
theorem c5_amended_cache_hit_wins (cache : CacheT)
    (node : Bytes → Option InvoiceT) (ph : Bytes) :
    (∀ inv, cacheGet cache ph = some inv →
      lookupInvoice cache node ph = (.cached inv, cache)) ∧
    (∀ inv, cacheGet cache ph = none → node ph = some inv →
      lookupInvoice cache node ph = (.fromNode inv, cacheInsert inv.rhash inv cache)) ∧
    (cacheGet cache ph = none → node ph = none →
      lookupInvoice cache node ph = (.nodeErr, cache)) := by
  refine ⟨?_, ?_, ?_⟩
  · intro inv h
    unfold lookupInvoice
    rw [h]
  · intro inv h1 h2
    unfold lookupInvoice
    rw [h1, h2]
  · intro h1 h2
    unfold lookupInvoice
    rw [h1, h2]

/-- C5 witness: the amended statement applied to a one-entry cache (hit)
and to the empty cache (miss falling back to the node). -/
theorem c5_amended_witness :
    cacheGet [(zeros32, ⟨zeros32, .Open⟩)] zeros32 = some ⟨zeros32, .Open⟩ ∧
    lookupInvoice [(zeros32, ⟨zeros32, .Open⟩)] (fun _ => none) zeros32 =
      (.cached ⟨zeros32, .Open⟩, [(zeros32, ⟨zeros32, .Open⟩)]) ∧
    cacheGet [] zeros32 = none ∧
    lookupInvoice [] (fun _ => some ⟨zeros32, .Settled⟩) zeros32 =
      (.fromNode ⟨zeros32, .Settled⟩, cacheInsert zeros32 ⟨zeros32, .Settled⟩ []) :=
  ⟨by decide,
   (c5_amended_cache_hit_wins _ _ _).1 _ (by decide),
   by decide,
   (c5_amended_cache_hit_wins _ _ _).2.1 _ (by decide) rfl⟩

/-- C7 counterexample: extracting path "a" from the JSON object with no
fields panics on the missing segment (the source unwraps the lookup)
instead of returning an error. -/
theorem c7_counterexample :
    upstreamParse (some (some (Json.obj []))) "a" = .panicked ∧
    ∀ m, JOutcome.panicked ≠ .err m := by
  constructor
  · rfl
  · intro m h
    exact JOutcome.noConfusion h

/-- The parse loop agrees with the spec-worded traversal, except that a
missing segment panics instead of failing. -/
theorem traverseLoop_eq_spec (fields : List String) (root : Json) :
    traverseLoop root fields =
      (match traverseSpec root fields with
       | none => .panicked
       | some (.str s) => .ok s
       | some _ => .err "Unable to convert to string") := by
  induction fields generalizing root with
  | nil => cases root <;> rfl
  | cons f rest ih =>
    cases hseg : segGet root f with
    | none => simp [traverseLoop, traverseSpec, hseg]
    | some v =>
      simp only [traverseLoop, traverseSpec, hseg]
      exact ih v

/-- C7 amended: traversal along the dotted response-field path returns
the final value when it is a string, returns an error when the final
value is not a string, and PANICS (rather than returning an error)
whenever a path segment is missing from the JSON. -/
theorem c7_amended_traversal (root : Json) (path : String) :
    upstreamParse (some (some root)) path =
      (match traverseSpec root ((splitOnChar '.' path.data).map String.mk) with
       | none => .panicked
       | some (.str s) => .ok s
       | some _ => .err "Unable to convert to string") :=
  traverseLoop_eq_spec ((splitOnChar '.' path.data).map String.mk) root

instance : IsTotal (String × String) keyLE := ⟨fun a b => le_total a.1 b.1⟩

instance : IsTrans (String × String) keyLE := ⟨fun _ _ _ h1 h2 => le_trans h1 h2⟩

instance : IsAntisymm (String × String) (fun a b => a.1 < b.1) :=
  ⟨fun _ _ h1 h2 => absurd (lt_trans h1 h2) (lt_irrefl _)⟩

/-- Sortedness by key together with distinct keys gives strict
sortedness on the keys. -/
theorem pairwise_keyLT_of_sorted (l : List (String × String))
    (hs : List.Sorted keyLE l) (hnd : (l.map Prod.fst).Nodup) :
    List.Pairwise (fun a b : String × String => a.1 < b.1) l := by
  have h1 : List.Pairwise (fun a b : String × String => a.1 ≠ b.1) l :=
    List.pairwise_map.mp hnd
  have h2 : List.Pairwise keyLE l := hs
  exact (h2.and h1).imp (fun h => lt_of_le_of_ne h.1 h.2)

/-- Two permutation-equal maps with distinct keys sort to the same list. -/
theorem sortByKey_eq_of_perm (l₁ l₂ : List (String × String))
    (hperm : l₁.Perm l₂) (hnd : (l₁.map Prod.fst).Nodup) :
    sortByKey l₁ = sortByKey l₂ := by
  have hp1 : (sortByKey l₁).Perm l₁ := List.perm_insertionSort keyLE l₁
  have hp2 : (sortByKey l₂).Perm l₂ := List.perm_insertionSort keyLE l₂
  have hp : (sortByKey l₁).Perm (sortByKey l₂) := hp1.trans (hperm.trans hp2.symm)
  have hnd₁ : ((sortByKey l₁).map Prod.fst).Nodup :=
    ((hp1.map Prod.fst).nodup_iff).mpr hnd
  have hnd₂ : ((sortByKey l₂).map Prod.fst).Nodup :=
    ((hp.map Prod.fst).nodup_iff).mp hnd₁
  have hs₁ := pairwise_keyLT_of_sorted _ (List.sorted_insertionSort keyLE l₁) hnd₁
  have hs₂ := pairwise_keyLT_of_sorted _ (List.sorted_insertionSort keyLE l₂) hnd₂
  exact List.eq_of_perm_of_sorted hp hs₁ hs₂

/-- C8: the canonical request-body digest is invariant under permutation
of the map entries (keys being distinct, as in a map), and it equals
SHA-256 of the UTF-8 bytes of the keys and values concatenated with no
separator in ascending key order. -/
theorem c8_digest_permutation_invariant (l₁ l₂ : List (String × String))
    (hperm : l₁.Perm l₂) (hnd : (l₁.map Prod.fst).Nodup) :
    mapDigest l₁ = mapDigest l₂ ∧
    mapDigest l₁ = sha256 (strBytes (canonicalStr l₁)) := by
  constructor
  · unfold mapDigest canonicalStr
    rw [sortByKey_eq_of_perm l₁ l₂ hperm hnd]
  · rfl

/-- C8 witness: the digest of a two-entry map given in the two possible
orders. -/
theorem c8_digest_witness :
    ([("b", "2"), ("a", "1")].Perm [("a", "1"), ("b", "2")]) ∧
    (([("b", "2"), ("a", "1")] : List (String × String)).map Prod.fst).Nodup ∧
    mapDigest [("b", "2"), ("a", "1")] = mapDigest [("a", "1"), ("b", "2")] :=
  ⟨by decide, by decide,
   (c8_digest_permutation_invariant _ _ (by decide) (by decide)).1⟩

/-- Decoding undoes the hex digit pair encoding of one byte value. -/
theorem hexNibble_hexDigit : ∀ n : Nat, n < 16 → hexNibble (hexDigit n) = some n := by
  decide

/-- Hex decoding undoes hex encoding on byte values. -/
theorem hexDecodeChars_encode (bs : Bytes) (h : ∀ b ∈ bs, b < 256) :
    hexDecodeChars
      (bs.foldr (fun b acc => hexDigit (b / 16) :: hexDigit (b % 16) :: acc) []) =
      some bs := by
  induction bs with
  | nil => rfl
  | cons b rest ih =>
    have hb : b < 256 := h b (List.mem_cons_self b rest)
    have h1 : b / 16 < 16 := by omega
    have h2 : b % 16 < 16 := by omega
    have hrest := ih (fun x hx => h x (List.mem_cons_of_mem b hx))
    have hval : b / 16 * 16 + b % 16 = b := by omega
    simp [hexDecodeChars, hexNibble_hexDigit _ h1, hexNibble_hexDigit _ h2,
          hrest, hval]

theorem hexDecode_hexEncode (bs : Bytes) (h : ∀ b ∈ bs, b < 256) :
    hexDecode (hexEncode bs) = some bs :=
  hexDecodeChars_encode bs h

/-- Deserializing the serialized identity recovers the identity fields. -/
theorem bincodeDeserId_serId (ph tok : Bytes) (h1 : ph.length = 32)
    (h2 : tok.length = 32) :
    bincodeDeserId (serId ⟨0, ph, tok⟩) = some ⟨0, ph, tok⟩ := by
  have hassoc : serId ⟨0, ph, tok⟩ = u64le 0 ++ (ph ++ tok) := by
    rw [serId, List.append_assoc]
  have hlen8 : (u64le (0 : Nat)).length = 8 := rfl
  have htake8 : (serId ⟨0, ph, tok⟩).take 8 = u64le 0 := by
    rw [hassoc, ← hlen8, List.take_left]
  have hdrop8 : (serId ⟨0, ph, tok⟩).drop 8 = ph ++ tok := by
    rw [hassoc, ← hlen8, List.drop_left]
  have htake32 : ((serId ⟨0, ph, tok⟩).drop 8).take 32 = ph := by
    rw [hdrop8, ← h1, List.take_left]
  have hdrop40 : (serId ⟨0, ph, tok⟩).drop 40 = tok := by
    have h40 : (40 : Nat) = 8 + 32 := rfl
    rw [h40, ← List.drop_drop, hdrop8, ← h1, List.drop_left]
  have htok : ((serId ⟨0, ph, tok⟩).drop 40).take 32 = tok := by
    rw [hdrop40, ← h2, List.take_length]
  have hlen : (serId ⟨0, ph, tok⟩).length = 72 := by
    rw [hassoc]
    simp [hlen8, h1, h2]
  have hdec : u64leDecode (u64le 0) = 0 := rfl
  unfold bincodeDeserId
  rw [hlen, htake8, htake32, htok, hdec]
  norm_num

/-- C9: decoding the hex-encoded serialized identity recovers the
original identity, for every version-0 identity with 32-byte payment
hash and token whose entries are bytes. -/
theorem c9_identity_round_trip (ph tok : Bytes) (h1 : ph.length = 32)
    (h2 : tok.length = 32) (h3 : ∀ b ∈ ph, b < 256) (h4 : ∀ b ∈ tok, b < 256) :
    idFromIdentifier (idToIdentifier ⟨0, ph, tok⟩) = some ⟨0, ph, tok⟩ := by
  have hser : ∀ b ∈ serId ⟨0, ph, tok⟩, b < 256 := by
    intro b hb
    rw [serId, List.append_assoc, List.mem_append, List.mem_append] at hb
    rcases hb with hb | hb | hb
    · simp [u64le] at hb
      omega
    · exact h3 b hb
    · exact h4 b hb
  unfold idToIdentifier idFromIdentifier
  rw [hexDecode_hexEncode _ hser]
  simp [bincodeDeserId_serId ph tok h1 h2]

/-- C9 witness: the round trip at the all-zero identity. -/
theorem c9_round_trip_witness :
    (List.replicate 32 0 : Bytes).length = 32 ∧
    (∀ b ∈ (List.replicate 32 0 : Bytes), b < 256) ∧
    idFromIdentifier (idToIdentifier ⟨0, List.replicate 32 0, List.replicate 32 0⟩) =
      some ⟨0, List.replicate 32 0, List.replicate 32 0⟩ :=
  ⟨by decide, by decide,
   c9_identity_round_trip _ _ (by decide) (by decide) (by decide) (by decide)⟩

/-- C10: a request to a protected path whose headers do not contain an
Authorization entry — in particular one carrying only a macaroon header —
is answered with the mint challenge; the result does not depend on any of
the verification collaborators (parser regex, macaroon deserializer and
verifier, node, upstream), so credential verification is never attempted
and the macaroon-only header shapes are never consulted. -/
theorem c10_no_auth_challenges (mc : MintCtx) (vc vc2 : VerCtx) (b : BackendT)
    (hm : HeaderMap) (store : Store) (cache : CacheT)
    (h : hmContains hm "Authorization" = false) :
    handleProtected mc vc b hm store cache = handleProtected mc vc2 b hm store cache ∧
    (∀ ph, mc.newInvoice (amountTotal b) = some ph →
      handleProtected mc vc b hm store cache =
        (.challenge (amountTotal b),
         storeInsert (dbKey ⟨0, ph, mc.tokenId⟩)
           (mintEntry ⟨0, ph, mc.tokenId⟩ (amountTotal b)) store, cache)) := by
  constructor
  · simp [handleProtected, h]
  · intro ph hph
    simp [handleProtected, h, generateChallange, hph]

/-- C10 witness: a request carrying only the Grpc-Metadata-Macaroon
header mints the challenge, for two verification contexts that differ. -/
theorem c10_no_auth_witness :
    hmContains [("Grpc-Metadata-Macaroon", "m")] "Authorization" = false ∧
    handleProtected ⟨fun _ => some zeros32, zeros32⟩ exVc0 exB1
        [("Grpc-Metadata-Macaroon", "m")] [] [] =
      handleProtected ⟨fun _ => some zeros32, zeros32⟩ exVc1 exB1
        [("Grpc-Metadata-Macaroon", "m")] [] [] ∧
    handleProtected ⟨fun _ => some zeros32, zeros32⟩ exVc0 exB1
        [("Grpc-Metadata-Macaroon", "m")] [] [] =
      (.challenge (amountTotal exB1),
       storeInsert (dbKey ⟨0, zeros32, zeros32⟩)
         (mintEntry ⟨0, zeros32, zeros32⟩ (amountTotal exB1)) [], []) :=
  ⟨by decide,
   (c10_no_auth_challenges ⟨fun _ => some zeros32, zeros32⟩ exVc0 exVc1 exB1
     [("Grpc-Metadata-Macaroon", "m")] [] [] (by decide)).1,
   (c10_no_auth_challenges ⟨fun _ => some zeros32, zeros32⟩ exVc0 exVc1 exB1
     [("Grpc-Metadata-Macaroon", "m")] [] [] (by decide)).2 zeros32 rfl⟩

end LsatProxy
